import Mathlib

/-!
Shallow embedding of the `DataInspector` driver
(`rfsoc_radio/data_inspector.py`): a register-sequenced DMA capture
(`get_frame`), buffer reshaping (`set_shape`), autoscale normalisation
(`_scale_data`), and the data-driven memory-mapped register properties
(`_create_mmio_property` over `_dataInspector_props`).

Driver state is a record of the three control registers, the identity and
length of the currently held DMA buffer, and an allocation counter; every
operation additionally emits a trace of hardware-visible events (MMIO
reads/writes, DMA start/wait, buffer free/alloc, decode reads), so ordering
claims become claims about the emitted list.
-/

namespace DataInspector

/-- Hardware-visible events emitted by the driver. -/
inductive Ev where
  | mmioWrite : Nat → Nat → Ev
  | mmioRead : Nat → Ev
  | dmaStart : Nat → Ev
  | dmaWait : Ev
  | bufFree : Nat → Ev
  | bufAlloc : Nat → Nat → Ev
  | decodeRead : Nat → Ev
deriving DecidableEq, Repr

/-- The three named control registers of the inspector IP core. -/
inductive RegName where
  | reset
  | enable
  | packetsize
deriving DecidableEq, Repr

/-- `_dataInspector_props`: the LUT of property addresses. -/
def dataInspectorProps : List (RegName × Nat) :=
  [(RegName.reset, 0), (RegName.enable, 4), (RegName.packetsize, 8)]

/-- Byte offset a register name resolves to, via the LUT. -/
def regOffset (r : RegName) : Nat :=
  (dataInspectorProps.lookup r).getD 0

/-- `_create_mmio_property` getter: a single uncached MMIO read at the
register's offset, returning the value found in the memory-mapped block. -/
def prop_get (mem : Nat → Nat) (r : RegName) : Nat × List Ev :=
  (mem (regOffset r), [Ev.mmioRead (regOffset r)])

/-- `_create_mmio_property` setter: a single MMIO write of the value at the
register's offset, updating the memory-mapped block. -/
def prop_set (mem : Nat → Nat) (r : RegName) (v : Nat) : (Nat → Nat) × List Ev :=
  (fun a => if a = regOffset r then v else mem a, [Ev.mmioWrite (regOffset r) v])

/-- Driver state: the three control registers of the
`data_inspector_module`, the identity and total element count of the buffer
currently held by `self.buffer`, a counter supplying fresh allocation
identities, and the `_autoscale` flag. -/
structure DIState where
  reset : Nat
  enable : Nat
  packetsize : Nat
  bufId : Nat
  bufLen : Nat
  nextId : Nat
  autoscale : Bool
deriving DecidableEq, Repr

/-- Writing a named register of the `data_inspector_module`: one MMIO write
at the register's offset (the data-driven property setter). -/
def regWrite (s : DIState) (r : RegName) (v : Nat) : DIState × List Ev :=
  (match r with
   | RegName.reset => { s with reset := v }
   | RegName.enable => { s with enable := v }
   | RegName.packetsize => { s with packetsize := v },
   [Ev.mmioWrite (regOffset r) v])

/-- Reading a named register of the `data_inspector_module`: one MMIO read
at the register's offset (the data-driven property getter), returning the
current hardware value with no caching. -/
def regRead (s : DIState) (r : RegName) : Nat × List Ev :=
  (match r with
   | RegName.reset => s.reset
   | RegName.enable => s.enable
   | RegName.packetsize => s.packetsize,
   [Ev.mmioRead (regOffset r)])

/-- `self.fractional`: the fixed fractional-bit count. -/
def fractional : Nat := 14

/-- A complex sample as an exact (real, imaginary) pair of rationals. -/
abbrev Cx := ℚ × ℚ

/-- `t_data[::2] + 1j * t_data[1::2]` for an even-length interleaved list:
pair consecutive entries as (real, imaginary). -/
def deinterleave : List ℚ → List Cx
  | a :: b :: rest => (a, b) :: deinterleave rest
  | _ => []

/-- `np.array(self.buffer) * 2**-self.fractional` followed by the
interleaved pairing: the fixed-point decode of the raw buffer. -/
def decode_frame (raw : List Int) : List Cx :=
  deinterleave (raw.map (fun x : Int => (x : ℚ) / 2 ^ fractional))

/-- `get_frame`: deassert reset, start the inbound DMA transfer into the
held buffer, assert enable, block on transfer completion, deassert enable,
assert reset, then decode the raw buffer. `raw` is the buffer contents
left by the DMA transfer. Returns the final state, the event trace, and
the decoded complex frame. -/
def get_frame (raw : List Int) (s : DIState) : DIState × List Ev × List Cx :=
  let (s1, e1) := regWrite s RegName.reset 0
  let e2 := [Ev.dmaStart s1.bufId]
  let (s2, e3) := regWrite s1 RegName.enable 1
  let e4 := [Ev.dmaWait]
  let (s3, e5) := regWrite s2 RegName.enable 0
  let (s4, e6) := regWrite s3 RegName.reset 1
  let c_data := decode_frame raw
  (s4, e1 ++ e2 ++ e3 ++ e4 ++ e5 ++ e6 ++ [Ev.decodeRead s4.bufId], c_data)

/-- Errors `set_shape` can propagate: indexing an empty shape tuple, or a
failed buffer allocation (raised by `allocate`). -/
inductive ShapeErr where
  | emptyShape
  | allocFail
deriving DecidableEq, Repr

/-- The running product `product *= i` over a shape tuple, starting at 1. -/
def listProd (l : List Nat) : Nat := l.foldl (· * ·) 1

/-- `set_shape`: free the held buffer, double the first dimension of the
shape, allocate a replacement buffer of that shape, then write the product
of the original shape to the `packetsize` register. `allocOk` is whether
the environment's `allocate` succeeds; on failure the error propagates and
the `packetsize` write never happens. An empty shape faults when indexing
`lshape[0]`. -/
def set_shape (allocOk : Bool) (shape : List Nat) (s : DIState) :
    List Ev × Except ShapeErr DIState :=
  let freeEv := Ev.bufFree s.bufId
  match shape with
  | [] => ([freeEv], Except.error ShapeErr.emptyShape)
  | d0 :: rest =>
    let tshape := (d0 * 2) :: rest
    let newLen := listProd tshape
    if allocOk then
      let newId := s.nextId
      let s1 : DIState :=
        { s with bufId := newId, bufLen := newLen, nextId := s.nextId + 1 }
      let product := listProd shape
      let (s2, eWrite) := regWrite s1 RegName.packetsize product
      ([freeEv, Ev.bufAlloc newId newLen] ++ eWrite, Except.ok s2)
    else
      ([freeEv], Except.error ShapeErr.allocFail)

/-- The register and buffer setup performed by `__init__` before the first
capture: write 64 to `packetsize`, 0 to `enable`, 1 to `reset`, read
`packetsize` back, and allocate the buffer with `packetsize * 2` elements.
`s` is the arbitrary hardware/driver state found at construction. -/
def init_setup (s : DIState) (autoscaleArg : Bool) : DIState × List Ev :=
  let s0 : DIState := { s with autoscale := autoscaleArg }
  let (s1, e1) := regWrite s0 RegName.packetsize 64
  let (s2, e2) := regWrite s1 RegName.enable 0
  let (s3, e3) := regWrite s2 RegName.reset 1
  let (ps, e4) := regRead s3 RegName.packetsize
  let newId := s3.nextId
  let s4 : DIState :=
    { s3 with bufId := newId, bufLen := ps * 2, nextId := newId + 1 }
  (s4, e1 ++ e2 ++ e3 ++ e4 ++ [Ev.bufAlloc newId (ps * 2)])

/-- One step of `np.max` over complex values: numpy compares complex
numbers lexicographically (real part first, then imaginary part). -/
def npMaxPair (a b : Cx) : Cx :=
  if a.1 < b.1 ∨ (a.1 = b.1 ∧ a.2 < b.2) then b else a

/-- `np.max(data)`: the lexicographic maximum of a complex array (the
"maximum signed sample", not the maximum-magnitude sample). -/
def npMax : List Cx → Cx
  | [] => (0, 0)
  | x :: xs => xs.foldl npMaxPair x

/-- Squared magnitude of a complex sample, as an exact rational. -/
def cxMagSq (z : Cx) : ℚ := z.1 * z.1 + z.2 * z.2

/-- `abs` of a complex sample: the real magnitude. -/
noncomputable def cxAbs (z : Cx) : ℝ := Real.sqrt ((cxMagSq z : ℚ) : ℝ)

/-- `mag = abs(np.max(data))` in `_scale_data`: the magnitude `_scale_data`
divides by, with no zero guard. -/
noncomputable def scale_divisor (data : List Cx) : ℝ := cxAbs (npMax data)

/-- The image of one sample under `_scale_data`: multiplied by
`scale = 1 / mag`. -/
noncomputable def scalePoint (data : List Cx) (z : Cx) : ℝ × ℝ :=
  ((z.1 : ℝ) * (1 / scale_divisor data), (z.2 : ℝ) * (1 / scale_divisor data))

/-- `_scale_data`: divide every sample by the magnitude of the
lexicographic maximum sample. -/
noncomputable def scale_data (data : List Cx) : List (ℝ × ℝ) :=
  data.map (scalePoint data)

/-- Magnitude of a scaled (real-valued) sample. -/
noncomputable def rAbs (p : ℝ × ℝ) : ℝ := Real.sqrt (p.1 * p.1 + p.2 * p.2)

/-- The frame `get_frame` returns to its caller: the decoded frame, passed
through `_scale_data` when `_autoscale` is set. -/
noncomputable def get_frame_out (raw : List Int) (s : DIState) : List (ℝ × ℝ) :=
  if s.autoscale then scale_data ((get_frame raw s).2.2)
  else ((get_frame raw s).2.2).map (fun z => ((z.1 : ℝ), (z.2 : ℝ)))

/-- The driver state right after construction with the default packet size
of 64 (buffer of 128 raw values), autoscale off. -/
def sExample : DIState :=
  { reset := 1, enable := 0, packetsize := 64, bufId := 0, bufLen := 128,
    nextId := 1, autoscale := false }

/-- A driver state with packet size 1 and autoscale on. -/
def sAuto : DIState :=
  { reset := 1, enable := 0, packetsize := 1, bufId := 0, bufLen := 2,
    nextId := 1, autoscale := true }

end DataInspector

namespace DataInspector

/-- `listProd` splits off the head factor. -/
theorem listProd_cons (x : Nat) (l : List Nat) : listProd (x :: l) = x * listProd l := by
  have h : ∀ (l : List Nat) (a b : Nat),
      l.foldl (· * ·) (a * b) = a * l.foldl (· * ·) b := by
    intro l
    induction l with
    | nil => intro a b; rfl
    | cons y ys ih =>
      intro a b
      simp only [List.foldl_cons]
      rw [Nat.mul_assoc, ih]
  simpa [listProd] using h l x 1

/-- Claim C1: in `get_frame` the operations occur in this strict order:
reset written 0, inbound DMA transfer started, enable written 1, blocking
wait, enable written 0, reset written 1, and finally the decode of the raw
buffer. -/
theorem get_frame_event_order (s : DIState) (raw : List Int) :
    (get_frame raw s).2.1 =
      [Ev.mmioWrite (regOffset RegName.reset) 0,
       Ev.dmaStart s.bufId,
       Ev.mmioWrite (regOffset RegName.enable) 1,
       Ev.dmaWait,
       Ev.mmioWrite (regOffset RegName.enable) 0,
       Ev.mmioWrite (regOffset RegName.reset) 1,
       Ev.decodeRead s.bufId] := by
  rfl

/-- Claim C2: every invocation of `get_frame` that returns leaves the
registers at `reset = 1` and `enable = 0`. -/
theorem get_frame_final_regs (s : DIState) (raw : List Int) :
    ((get_frame raw s).1).reset = 1 ∧ ((get_frame raw s).1).enable = 0 := by
  exact ⟨rfl, rfl⟩

/-- Claim C4: a successful `set_shape` with one-dimensional shape `(n,)`
yields a buffer of length `2 * n` and writes `n` to the `packetsize`
register; in general the new buffer's element count is twice the written
packet size, and the same invariant holds right after construction. -/
theorem set_shape_buffer_invariant (s : DIState) (shape : List Nat)
    (ev : List Ev) (s' : DIState)
    (h : set_shape true shape s = (ev, Except.ok s')) :
    s'.bufLen = 2 * s'.packetsize ∧
    (∀ n, shape = [n] →
      s'.bufLen = 2 * n ∧ s'.packetsize = n ∧
      Ev.mmioWrite (regOffset RegName.packetsize) n ∈ ev) ∧
    (∀ s₀ a, ((init_setup s₀ a).1).bufLen = 2 * ((init_setup s₀ a).1).packetsize) := by
  match shape with
  | [] => simp [set_shape] at h
  | d0 :: rest =>
    have h' : set_shape true (d0 :: rest) s =
        ([Ev.bufFree s.bufId,
          Ev.bufAlloc s.nextId (listProd ((d0 * 2) :: rest)),
          Ev.mmioWrite (regOffset RegName.packetsize) (listProd (d0 :: rest))],
         Except.ok
           { s with
             bufId := s.nextId
             bufLen := listProd ((d0 * 2) :: rest)
             nextId := s.nextId + 1
             packetsize := listProd (d0 :: rest) }) := rfl
    rw [h'] at h
    injection h with hev hs
    injection hs with hs
    subst hev
    subst hs
    refine ⟨?_, ?_, ?_⟩
    · show listProd ((d0 * 2) :: rest) = 2 * listProd (d0 :: rest)
      rw [listProd_cons, listProd_cons, Nat.mul_comm d0 2, Nat.mul_assoc]
    · rintro n hn
      have hd : n = d0 ∧ rest = [] := by cases hn; exact ⟨rfl, rfl⟩
      obtain ⟨hd1, hd2⟩ := hd
      refine ⟨?_, ?_, ?_⟩
      · rw [hd1, hd2]
        show listProd [d0 * 2] = 2 * d0
        simp [listProd, Nat.mul_comm]
      · rw [hd1, hd2]
        show listProd [d0] = d0
        simp [listProd]
      · rw [hd1, hd2]
        have hp : listProd [d0] = d0 := by simp [listProd]
        simp [hp]
    · intro s₀ a
      rfl

/-- Witness for C4 at shape `[5]` and a concrete state. -/
theorem set_shape_buffer_invariant_witness :
    ∃ ev s',
      set_shape true [5]
        { reset := 1, enable := 0, packetsize := 64, bufId := 0,
          bufLen := 128, nextId := 1, autoscale := false } = (ev, Except.ok s') ∧
      s'.bufLen = 2 * s'.packetsize ∧ s'.bufLen = 10 ∧ s'.packetsize = 5 := by
  refine ⟨_, _, rfl, ?_⟩
  have h := set_shape_buffer_invariant
    { reset := 1, enable := 0, packetsize := 64, bufId := 0,
      bufLen := 128, nextId := 1, autoscale := false } [5] _ _ rfl
  exact ⟨h.1, (h.2.1 5 rfl).1, (h.2.1 5 rfl).2.1⟩

/-- Claim C8: `set_shape` frees the held buffer before allocating the
replacement; if the allocation fails the error propagates with no
fallback, and the `packetsize` register is written only after a
successful allocation (never on the failing path). -/
theorem set_shape_free_then_alloc (s : DIState) (shape : List Nat)
    (d0 : Nat) (rest : List Nat) (h : shape = d0 :: rest) :
    set_shape false shape s = ([Ev.bufFree s.bufId], Except.error ShapeErr.allocFail) ∧
    (set_shape true shape s).1 =
      [Ev.bufFree s.bufId,
       Ev.bufAlloc s.nextId (listProd ((d0 * 2) :: rest)),
       Ev.mmioWrite (regOffset RegName.packetsize) (listProd shape)] ∧
    (∀ e ∈ (set_shape false shape s).1, ∀ v,
      e ≠ Ev.mmioWrite (regOffset RegName.packetsize) v) := by
  subst h
  refine ⟨rfl, rfl, ?_⟩
  intro e he v
  have h1 : (set_shape false (d0 :: rest) s).1 = [Ev.bufFree s.bufId] := rfl
  rw [h1, List.mem_singleton] at he
  subst he
  simp

/-- Witness for C8 at shape `[3, 2]` and a concrete state. -/
theorem set_shape_free_then_alloc_witness :
    set_shape false [3, 2]
      { reset := 1, enable := 0, packetsize := 64, bufId := 7,
        bufLen := 128, nextId := 9, autoscale := false } =
      ([Ev.bufFree 7], Except.error ShapeErr.allocFail) ∧
    (set_shape true [3, 2]
      { reset := 1, enable := 0, packetsize := 64, bufId := 7,
        bufLen := 128, nextId := 9, autoscale := false }).1 =
      [Ev.bufFree 7, Ev.bufAlloc 9 12, Ev.mmioWrite 8 6] := by
  have h := set_shape_free_then_alloc
    { reset := 1, enable := 0, packetsize := 64, bufId := 7,
      bufLen := 128, nextId := 9, autoscale := false } [3, 2] 3 [2] rfl
  exact ⟨h.1, by rw [h.2.1]; rfl⟩

/-- Claim C9: after a successful `set_shape`, the next `get_frame` starts
its DMA transfer into, and decodes from, only the newly allocated buffer:
the buffer freed by the reshape is never referenced (no use-after-release).
`hfresh` is the allocation-freshness invariant `bufId < nextId`, which
holds from construction on. -/
theorem reshape_then_capture_no_use_after_release (s s' : DIState)
    (shape : List Nat) (ev : List Ev) (raw : List Int)
    (hfresh : s.bufId < s.nextId)
    (h : set_shape true shape s = (ev, Except.ok s')) :
    s'.bufId ≠ s.bufId ∧
    (∀ e ∈ (get_frame raw s').2.1,
      e ≠ Ev.dmaStart s.bufId ∧ e ≠ Ev.decodeRead s.bufId) ∧
    Ev.dmaStart s'.bufId ∈ (get_frame raw s').2.1 ∧
    Ev.decodeRead s'.bufId ∈ (get_frame raw s').2.1 := by
  match shape with
  | [] => simp [set_shape] at h
  | d0 :: rest =>
    have h' : set_shape true (d0 :: rest) s =
        ([Ev.bufFree s.bufId,
          Ev.bufAlloc s.nextId (listProd ((d0 * 2) :: rest)),
          Ev.mmioWrite (regOffset RegName.packetsize) (listProd (d0 :: rest))],
         Except.ok
           { s with
             bufId := s.nextId
             bufLen := listProd ((d0 * 2) :: rest)
             nextId := s.nextId + 1
             packetsize := listProd (d0 :: rest) }) := rfl
    rw [h'] at h
    injection h with hev hs
    injection hs with hs
    have hid : s'.bufId = s.nextId := by rw [← hs]
    have hne : s'.bufId ≠ s.bufId := by rw [hid]; exact ne_of_gt hfresh
    have htr : (get_frame raw s').2.1 =
        [Ev.mmioWrite (regOffset RegName.reset) 0, Ev.dmaStart s'.bufId,
         Ev.mmioWrite (regOffset RegName.enable) 1, Ev.dmaWait,
         Ev.mmioWrite (regOffset RegName.enable) 0,
         Ev.mmioWrite (regOffset RegName.reset) 1,
         Ev.decodeRead s'.bufId] := rfl
    refine ⟨hne, ?_, ?_, ?_⟩
    · intro e he
      rw [htr] at he
      fin_cases he <;> exact ⟨by simp [hne], by simp [hne]⟩
    · rw [htr]; simp
    · rw [htr]; simp

/-- `deinterleave` halves the length. -/
theorem deinterleave_length : ∀ l : List ℚ, (deinterleave l).length = l.length / 2
  | [] => rfl
  | [_] => by
    show (0 : Nat) = 1 / 2
    norm_num
  | _ :: _ :: rest => by
    show (deinterleave rest).length + 1 = (rest.length + 1 + 1) / 2
    rw [deinterleave_length rest]
    omega

/-- The `k`-th pair produced by `deinterleave` is the `2k`-th and
`(2k+1)`-th input entries. -/
theorem deinterleave_get : ∀ (l : List ℚ) (k : Nat) (a b : ℚ),
    l.get? (2 * k) = some a → l.get? (2 * k + 1) = some b →
    (deinterleave l).get? k = some (a, b)
  | [], _, _, _ => by
    intro h _
    simp at h
  | [x], k, a, b => by
    intro h1 h2
    rcases k with _ | k
    · simp at h2
    · have hx : ([x] : List ℚ).get? (2 * (k + 1)) = none := by
        rw [show 2 * (k + 1) = 2 * k + 1 + 1 from by ring]
        rfl
      rw [hx] at h1
      cases h1
  | x :: y :: rest, 0, a, b => by
    intro h1 h2
    simp at h1 h2
    rw [← h1, ← h2]
    rfl
  | x :: y :: rest, k + 1, a, b => by
    intro h1 h2
    have ha : (x :: y :: rest).get? (2 * (k + 1)) = rest.get? (2 * k) := by
      rw [show 2 * (k + 1) = 2 * k + 1 + 1 from by ring]
      rfl
    have hb : (x :: y :: rest).get? (2 * (k + 1) + 1) = rest.get? (2 * k + 1) := by
      rw [show 2 * (k + 1) + 1 = 2 * k + 1 + 1 + 1 from by ring]
      rfl
    rw [ha] at h1
    rw [hb] at h2
    show (deinterleave rest).get? k = some (a, b)
    exact deinterleave_get rest k a b h1 h2

/-- Claim C3: the fixed-point decode is a pure function of the raw buffer:
when the buffer holds `2 * packetsize` interleaved signed values, the
decoded frame has length `packetsize` and its `k`-th sample is
`buffer[2k] * 2^-14 + i * buffer[2k+1] * 2^-14`. -/
theorem get_frame_decode (s : DIState) (raw : List Int) (k : Nat) (a b : Int)
    (hlen : raw.length = 2 * s.packetsize)
    (ha : raw.get? (2 * k) = some a) (hb : raw.get? (2 * k + 1) = some b) :
    ((get_frame raw s).2.2).length = s.packetsize ∧
    ((get_frame raw s).2.2).get? k =
      some ((a : ℚ) / 2 ^ fractional, (b : ℚ) / 2 ^ fractional) := by
  have hc : (get_frame raw s).2.2 =
      deinterleave (raw.map (fun x : Int => (x : ℚ) / 2 ^ fractional)) := rfl
  constructor
  · rw [hc, deinterleave_length, List.length_map, hlen]
    omega
  · rw [hc]
    refine deinterleave_get _ k _ _ ?_ ?_
    · rw [List.get?_map, ha]
      rfl
    · rw [List.get?_map, hb]
      rfl

/-- Witness for C3 at the raw values `[3, -3]`: the decoded sample is
`(3 * 2^-14) + (-3 * 2^-14) i`. -/
theorem get_frame_decode_witness :
    ((get_frame [3, -3] sAuto).2.2).length = 1 ∧
    ((get_frame [3, -3] sAuto).2.2).get? 0 =
      some ((3 : ℚ) / 2 ^ fractional, (-3 : ℚ) / 2 ^ fractional) :=
  get_frame_decode sAuto [3, -3] 0 3 (-3) rfl rfl rfl

/-- Claim C7: register names resolve to the fixed byte offsets
`reset -> 0x0`, `enable -> 0x4`, `packetsize -> 0x8`; the generated getter
performs exactly one memory-mapped read at the register's offset returning
the hardware value (no caching), and the generated setter performs exactly
one memory-mapped write of the value at the register's offset. -/
theorem mmio_register_access (r : RegName) (mem : Nat → Nat) (v : Nat) :
    regOffset RegName.reset = 0 ∧ regOffset RegName.enable = 4 ∧
    regOffset RegName.packetsize = 8 ∧
    prop_get mem r = (mem (regOffset r), [Ev.mmioRead (regOffset r)]) ∧
    (prop_set mem r v).2 = [Ev.mmioWrite (regOffset r) v] ∧
    (prop_set mem r v).1 (regOffset r) = v := by
  refine ⟨rfl, rfl, rfl, rfl, rfl, ?_⟩
  simp [prop_set]

/-- Counterexample to claim C6: at a concrete post-construction state, the
write `reset = 1` does not precede the write `enable = 0` in the
`get_frame` event trace — the code deasserts `enable` first. -/
theorem get_frame_reset_write_not_first :
    ¬ (∀ i j : Fin ((get_frame ([] : List Int) sExample).2.1.length),
        (get_frame ([] : List Int) sExample).2.1.get i = Ev.mmioWrite 0 1 →
        (get_frame ([] : List Int) sExample).2.1.get j = Ev.mmioWrite 4 0 →
        (i : Nat) < (j : Nat)) := by
  decide

/-- Claim C6 (amended): after the DMA transfer completes, `get_frame`
writes `enable = 0` first and `reset = 1` second: the enable-deassert
strictly precedes the reset-assert in the event trace. -/
theorem get_frame_enable_then_reset (s : DIState) (raw : List Int) :
    ∃ pre mid post,
      (get_frame raw s).2.1 =
        pre ++ [Ev.mmioWrite (regOffset RegName.enable) 0] ++ mid ++
          [Ev.mmioWrite (regOffset RegName.reset) 1] ++ post ∧
      Ev.dmaWait ∈ pre :=
  ⟨[Ev.mmioWrite (regOffset RegName.reset) 0, Ev.dmaStart s.bufId,
    Ev.mmioWrite (regOffset RegName.enable) 1, Ev.dmaWait], [],
   [Ev.decodeRead s.bufId], rfl, by simp⟩

/-- Witness for C9: reshape to `[4]` from a concrete fresh state, then
capture; the freed buffer id 0 is never referenced. -/
theorem reshape_then_capture_no_use_after_release_witness :
    ∃ ev s',
      set_shape true [4]
        { reset := 1, enable := 0, packetsize := 64, bufId := 0,
          bufLen := 128, nextId := 1, autoscale := false } = (ev, Except.ok s') ∧
      s'.bufId ≠ 0 ∧
      (∀ e ∈ (get_frame [1, 2, 3, 4, 5, 6, 7, 8] s').2.1,
        e ≠ Ev.dmaStart 0 ∧ e ≠ Ev.decodeRead 0) := by
  refine ⟨_, _, rfl, ?_⟩
  have h := reshape_then_capture_no_use_after_release
    { reset := 1, enable := 0, packetsize := 64, bufId := 0,
      bufLen := 128, nextId := 1, autoscale := false } _ [4] _
    [1, 2, 3, 4, 5, 6, 7, 8] (by decide) rfl
  exact ⟨h.1, h.2.1⟩

/-- `npMaxPair` returns one of its two arguments. -/
theorem npMaxPair_cases (a b : Cx) : npMaxPair a b = a ∨ npMaxPair a b = b := by
  unfold npMaxPair
  split
  · exact Or.inr rfl
  · exact Or.inl rfl

/-- Folding `npMaxPair` yields the seed or a list element. -/
theorem foldl_npMaxPair_mem : ∀ (xs : List Cx) (a : Cx),
    xs.foldl npMaxPair a = a ∨ xs.foldl npMaxPair a ∈ xs
  | [], _ => Or.inl rfl
  | x :: xs, a => by
    rw [List.foldl_cons]
    rcases foldl_npMaxPair_mem xs (npMaxPair a x) with h | h
    · rcases npMaxPair_cases a x with hc | hc
      · exact Or.inl (h.trans hc)
      · exact Or.inr (by rw [h, hc]; exact List.mem_cons_self x xs)
    · exact Or.inr (List.mem_cons_of_mem x h)

/-- The numpy maximum of a non-empty list is one of its elements. -/
theorem npMax_mem (l : List Cx) (h : l ≠ []) : npMax l ∈ l := by
  match l, h with
  | x :: xs, _ =>
    show xs.foldl npMaxPair x ∈ x :: xs
    rcases foldl_npMaxPair_mem xs x with h1 | h1
    · rw [h1]
      exact List.mem_cons_self x xs
    · exact List.mem_cons_of_mem x h1

/-- Claim C5: with autoscale enabled, `get_frame` returns the decoded
frame with every sample divided by the magnitude of the maximum sample —
the maximum by numpy's signed/lexicographic order, not the
maximum-magnitude sample — and for a non-empty frame whose maximum has
nonzero magnitude, the sample that was the maximum has exactly magnitude 1
after scaling. -/
theorem autoscale_max_unit_magnitude (s : DIState) (raw : List Int)
    (hauto : s.autoscale = true)
    (hne : (get_frame raw s).2.2 ≠ [])
    (hmag : cxMagSq (npMax ((get_frame raw s).2.2)) ≠ 0) :
    get_frame_out raw s = scale_data ((get_frame raw s).2.2) ∧
    npMax ((get_frame raw s).2.2) ∈ (get_frame raw s).2.2 ∧
    rAbs (scalePoint ((get_frame raw s).2.2)
      (npMax ((get_frame raw s).2.2))) = 1 := by
  refine ⟨by simp [get_frame_out, hauto], npMax_mem _ hne, ?_⟩
  set c := (get_frame raw s).2.2 with hc
  set m := npMax c with hm
  have hq0 : (0 : ℝ) < ((cxMagSq m : ℚ) : ℝ) := by
    have h1 : (0 : ℚ) ≤ cxMagSq m := by
      unfold cxMagSq
      have ha := mul_self_nonneg m.1
      have hb := mul_self_nonneg m.2
      linarith
    have h2 : (0 : ℚ) < cxMagSq m := lt_of_le_of_ne h1 (Ne.symm hmag)
    exact_mod_cast h2
  have hdd : scale_divisor c * scale_divisor c = ((cxMagSq m : ℚ) : ℝ) := by
    show Real.sqrt ((cxMagSq (npMax c) : ℚ) : ℝ) *
      Real.sqrt ((cxMagSq (npMax c) : ℚ) : ℝ) = ((cxMagSq m : ℚ) : ℝ)
    rw [← hm]
    exact Real.mul_self_sqrt (le_of_lt hq0)
  have hdne : scale_divisor c ≠ 0 := by
    intro h0
    rw [h0, mul_zero] at hdd
    exact absurd hdd.symm (ne_of_gt hq0)
  have hcast : ((cxMagSq m : ℚ) : ℝ) =
      (m.1 : ℝ) * (m.1 : ℝ) + (m.2 : ℝ) * (m.2 : ℝ) := by
    unfold cxMagSq
    push_cast
    ring
  unfold rAbs scalePoint
  have hsum : (m.1 : ℝ) * (m.1 : ℝ) + (m.2 : ℝ) * (m.2 : ℝ) =
      scale_divisor c * scale_divisor c := by
    rw [hdd, hcast]
  have hd1 : scale_divisor c * (1 / scale_divisor c) = 1 := by
    rw [one_div, mul_inv_cancel₀ hdne]
  have hinner : ((m.1 : ℝ) * (1 / scale_divisor c)) *
        ((m.1 : ℝ) * (1 / scale_divisor c)) +
      ((m.2 : ℝ) * (1 / scale_divisor c)) *
        ((m.2 : ℝ) * (1 / scale_divisor c)) = 1 := by
    calc ((m.1 : ℝ) * (1 / scale_divisor c)) *
            ((m.1 : ℝ) * (1 / scale_divisor c)) +
          ((m.2 : ℝ) * (1 / scale_divisor c)) *
            ((m.2 : ℝ) * (1 / scale_divisor c))
        = ((m.1 : ℝ) * (m.1 : ℝ) + (m.2 : ℝ) * (m.2 : ℝ)) *
            ((1 / scale_divisor c) * (1 / scale_divisor c)) := by ring
      _ = (scale_divisor c * scale_divisor c) *
            ((1 / scale_divisor c) * (1 / scale_divisor c)) := by rw [hsum]
      _ = (scale_divisor c * (1 / scale_divisor c)) *
            (scale_divisor c * (1 / scale_divisor c)) := by ring
      _ = 1 := by rw [hd1, mul_one]
  rw [hinner, Real.sqrt_one]

/-- Witness for C5 at the decoded frame of the raw buffer `[3, -3]` with
autoscale on: the scaled maximum sample has magnitude 1. -/
theorem autoscale_max_unit_magnitude_witness :
    npMax ((get_frame [3, -3] sAuto).2.2) ∈ (get_frame [3, -3] sAuto).2.2 ∧
    rAbs (scalePoint ((get_frame [3, -3] sAuto).2.2)
      (npMax ((get_frame [3, -3] sAuto).2.2))) = 1 := by
  have hd : (get_frame [3, -3] sAuto).2.2 =
      [((3 : ℚ) / 2 ^ 14, (-3 : ℚ) / 2 ^ 14)] := by
    show decode_frame [3, -3] = _
    norm_num [decode_frame, deinterleave, fractional]
  have h := autoscale_max_unit_magnitude sAuto [3, -3] rfl
    (by rw [hd]; exact List.cons_ne_nil _ _)
    (by rw [hd]; norm_num [npMax, cxMagSq])
  exact ⟨h.2.1, h.2.2⟩

/-- Decoding an all-zero even-length raw buffer yields all-zero samples. -/
theorem deinterleave_replicate_zero : ∀ n : Nat,
    deinterleave (List.replicate (2 * n) (0 : ℚ)) =
      List.replicate n ((0 : ℚ), (0 : ℚ))
  | 0 => rfl
  | n + 1 => by
    rw [show 2 * (n + 1) = 2 * n + 1 + 1 from by ring,
      List.replicate_succ, List.replicate_succ]
    show ((0 : ℚ), (0 : ℚ)) :: deinterleave (List.replicate (2 * n) (0 : ℚ)) =
      List.replicate (n + 1) ((0 : ℚ), (0 : ℚ))
    rw [deinterleave_replicate_zero n, List.replicate_succ]

/-- Folding `npMaxPair` over zero samples from a zero seed stays zero. -/
theorem foldl_npMaxPair_replicate_zero : ∀ k : Nat,
    (List.replicate k ((0 : ℚ), (0 : ℚ))).foldl npMaxPair (0, 0) = (0, 0)
  | 0 => rfl
  | k + 1 => by
    rw [List.replicate_succ, List.foldl_cons]
    have h : npMaxPair ((0 : ℚ), (0 : ℚ)) (0, 0) = (0, 0) := by
      simp [npMaxPair]
    rw [h]
    exact foldl_npMaxPair_replicate_zero k

/-- Claim C10: the autoscale step has no zero guard: for an all-zero raw
buffer of any positive packet size, the maximum decoded sample is 0, the
magnitude `_scale_data` divides by is exactly 0, and `get_frame` with
autoscale enabled still routes the frame through that division instead of
returning a distinct error. -/
theorem autoscale_divides_by_zero (s : DIState) (n : Nat)
    (hauto : s.autoscale = true) (hn : 0 < n) :
    npMax ((get_frame (List.replicate (2 * n) 0) s).2.2) = (0, 0) ∧
    scale_divisor ((get_frame (List.replicate (2 * n) 0) s).2.2) = 0 ∧
    get_frame_out (List.replicate (2 * n) 0) s =
      scale_data ((get_frame (List.replicate (2 * n) 0) s).2.2) := by
  have hmap : (List.replicate (2 * n) (0 : Int)).map
      (fun x : Int => (x : ℚ) / 2 ^ fractional) =
      List.replicate (2 * n) (0 : ℚ) := by
    rw [List.map_replicate]
    norm_num
  have hc : (get_frame (List.replicate (2 * n) 0) s).2.2 =
      List.replicate n ((0 : ℚ), (0 : ℚ)) := by
    show deinterleave ((List.replicate (2 * n) (0 : Int)).map
      (fun x : Int => (x : ℚ) / 2 ^ fractional)) = _
    rw [hmap, deinterleave_replicate_zero]
  have hmax : npMax ((get_frame (List.replicate (2 * n) 0) s).2.2) = (0, 0) := by
    rw [hc]
    obtain ⟨m, rfl⟩ : ∃ m, n = m + 1 := ⟨n - 1, by omega⟩
    rw [List.replicate_succ]
    show (List.replicate m ((0 : ℚ), (0 : ℚ))).foldl npMaxPair (0, 0) = (0, 0)
    exact foldl_npMaxPair_replicate_zero m
  refine ⟨hmax, ?_, by simp [get_frame_out, hauto]⟩
  show cxAbs (npMax ((get_frame (List.replicate (2 * n) 0) s).2.2)) = 0
  rw [hmax]
  show Real.sqrt ((cxMagSq ((0 : ℚ), (0 : ℚ)) : ℚ) : ℝ) = 0
  have h0 : cxMagSq ((0 : ℚ), (0 : ℚ)) = 0 := by norm_num [cxMagSq]
  rw [h0]
  push_cast
  exact Real.sqrt_zero

/-- Witness for C10 at packet size 2 and a concrete autoscale-on state. -/
theorem autoscale_divides_by_zero_witness :
    npMax ((get_frame (List.replicate 4 0) sAuto).2.2) = (0, 0) ∧
    scale_divisor ((get_frame (List.replicate 4 0) sAuto).2.2) = 0 :=
  ⟨(autoscale_divides_by_zero sAuto 2 rfl (by decide)).1,
   (autoscale_divides_by_zero sAuto 2 rfl (by decide)).2.1⟩

end DataInspector
